import Mathlib

/-
Verification development for the NectarCAM photostatistics analysis script
`analysis_photostat_simple.py`.

Modelling conventions (shallow embedding):
* numpy float arrays are modelled over a linear ordered field `K`
  (instantiated with `ℝ`, or with `ℚ` when a witness needs to compute);
  `np.sqrt` and `np.log` are taken as explicit function parameters
  `rsqrt rlog : K → K`, instantiated with `Real.sqrt` / `Real.log` in the
  theorems whose content depends on properties of those functions.
* a single numpy cell that can hold a non-finite value is modelled by
  `NpVal K` (finite value, nan, or a signed infinity); `np.divide` is
  `npDiv` with the IEEE conventions 0/0 = nan, x/0 = ±inf.
* masked arrays are a value array together with a boolean mask
  (`true` = masked/invalid); `np.sum` / `np.mean` / `np.std` over a masked
  array range only over the unmasked entries.
* the rebinning step of `error_propagation_compute` is modelled over `ℚ`
  (its content is purely order/field arithmetic); the NaN sentinel written
  by `np.where(count > 0, ..., np.nan)` is modelled by `Option ℚ` with
  `none` standing for NaN.
-/

namespace PhotoStat

/-- A numpy floating-point cell: either a finite value of the scalar field,
or one of the non-finite IEEE results that `np.divide` can produce. -/
inductive NpVal (K : Type) where
  | num (x : K)
  | nan
  | pinf
  | ninf
  deriving DecidableEq

variable {K : Type} [LinearOrderedField K]

/-- numpy scalar division: a finite quotient when the denominator is nonzero,
nan for 0/0 and a signed infinity for x/0 with x nonzero. -/
def npDiv (x y : K) : NpVal K :=
  if y = 0 then
    (if x = 0 then NpVal.nan else if 0 < x then NpVal.pinf else NpVal.ninf)
  else NpVal.num (x / y)

/-- numpy `sqrt` lifted to `NpVal`: nan for negative finite arguments and for
nan or -inf, `rsqrt x` for nonnegative finite `x`. -/
def npSqrt (rsqrt : K → K) : NpVal K → NpVal K
  | NpVal.num x => if x < 0 then NpVal.nan else NpVal.num (rsqrt x)
  | NpVal.nan => NpVal.nan
  | NpVal.pinf => NpVal.pinf
  | NpVal.ninf => NpVal.nan

/-- The comparison `a == 0` of the source's mask construction
`mask = [a == 0 for a in std_n_pe]`; on nan and infinities numpy's `==`
returns `False`. -/
def NpVal.eqZero : NpVal K → Bool
  | NpVal.num x => decide (x = 0)
  | _ => false

/-- Per-pixel photoelectron estimate, source lines 188-193:
`np.divide(charge, high_gain, out=zeros, where=high_gain > 0)`.
The `where` guard makes the division total, so the result is a plain value. -/
def n_pe_of (charge hg : K) : K :=
  if 0 < hg then charge / hg else 0

/-- Per-pixel `std_n_pe`, source lines 194-201:
`np.sqrt(np.divide(charge_std * n_pe, charge, out=zeros, where=high_gain != 0))`.
The guard tests `high_gain`, not the actual denominator `charge`, so the
division is genuinely performed whenever `hg ≠ 0` and can produce nan. -/
def std_n_pe_of (rsqrt : K → K) (charge_std charge hg : K) : NpVal K :=
  npSqrt rsqrt
    (if hg ≠ 0 then npDiv (charge_std * n_pe_of charge hg) charge else NpVal.num 0)

/-- The sparse input dataset read from `/data/GainContainer_0`
(`container.as_dict()` in `pre_process_fits`). Gain and charge-spread fields
are two-dimensional (rows indexed by pixel, columns by channel). -/
structure GainData (K : Type) where
  pixels_id : List ℕ
  high_gain : List (List K)
  low_gain : List (List K)
  charge : List K
  charge_std : List (List K)

/-- Source line 125: `total_pixels = 1855`. -/
def totalPixels : ℕ := 1855

/-- Source line 134: `np.setdiff1d(expected_pixels, existing_pixels)` —
the sorted list of expected ids not present in the input. -/
def missingPixels (ids : List ℕ) : List ℕ :=
  (List.range totalPixels).filter (fun p => decide (p ∉ ids))

/-- Column count of the `high_gain` field (source lines 137-141:
`shape[1]` of the two-dimensional array). -/
def hgShape (d : GainData K) : ℕ := (d.high_gain.headD []).length

/-- Column count of the `low_gain` field (source lines 142-146). -/
def lgShape (d : GainData K) : ℕ := (d.low_gain.headD []).length

/-- Column count of the `charge_std` field (source lines 147-151). -/
def chargeStdShape (d : GainData K) : ℕ := (d.charge_std.headD []).length

/-- Synthesized `high_gain` rows for the missing pixels, source line 156:
`np.zeros((len(missing_pixels), hg_shape))`. -/
def missingHighGain (d : GainData K) : List (List K) :=
  List.replicate (missingPixels d.pixels_id).length (List.replicate (hgShape d) 0)

/-- Synthesized `low_gain` rows for the missing pixels, source line 157. -/
def missingLowGain (d : GainData K) : List (List K) :=
  List.replicate (missingPixels d.pixels_id).length (List.replicate (lgShape d) 0)

/-- Synthesized `charge_std` rows for the missing pixels, source line 159:
`np.zeros((len(missing_pixels), charge_std_shape))`.  (These rows are built
but never merged: see `mergedChargeStd`.) -/
def missingChargeStd (d : GainData K) : List (List K) :=
  List.replicate (missingPixels d.pixels_id).length
    (List.replicate (chargeStdShape d) 0)

/-- Source line 163: `merged_pixel_ids = concatenate([existing, missing])`. -/
def mergedIds (d : GainData K) : List ℕ :=
  d.pixels_id ++ missingPixels d.pixels_id

/-- Source lines 164-166: `merged_hg`. -/
def mergedHighGain (d : GainData K) : List (List K) :=
  d.high_gain ++ missingHighGain d

/-- Source lines 167-169: `merged_lg`. -/
def mergedLowGain (d : GainData K) : List (List K) :=
  d.low_gain ++ missingLowGain d

/-- Source lines 170-172: `merged_charge = concatenate([charge, missing charge])`. -/
def mergedCharge (d : GainData K) : List K :=
  d.charge ++ List.replicate (missingPixels d.pixels_id).length 0

/-- Source lines 173-175.  The source reads
`merged_charge_std = np.concatenate([container_dict["charge"], missing_entries["charge"]])`:
it concatenates the CHARGE column, not the charge_std column, so the merged
"charge_std" is one-dimensional and equal to `mergedCharge`. -/
def mergedChargeStd (d : GainData K) : List K :=
  d.charge ++ List.replicate (missingPixels d.pixels_id).length 0

/-- Source line 178: `sorted_indices = np.argsort(merged_pixel_ids)`. -/
def argsort (ids : List ℕ) : List ℕ :=
  (List.range ids.length).mergeSort (fun i j => decide (ids.getD i 0 ≤ ids.getD j 0))

/-- Fancy indexing `xs[idx]` for a list of indices. -/
def applyIdx (idx : List ℕ) (xs : List α) (dflt : α) : List α :=
  idx.map (fun i => xs.getD i dflt)

/-- Source line 179: `merged_pixel_ids[sorted_indices]`. -/
def outIds (d : GainData K) : List ℕ :=
  applyIdx (argsort (mergedIds d)) (mergedIds d) 0

/-- Source line 180: `merged_hg[sorted_indices]`. -/
def outHighGain (d : GainData K) : List (List K) :=
  applyIdx (argsort (mergedIds d)) (mergedHighGain d) []

/-- Source line 181: `merged_lg[sorted_indices]`. -/
def outLowGain (d : GainData K) : List (List K) :=
  applyIdx (argsort (mergedIds d)) (mergedLowGain d) []

/-- Source line 182: `merged_charge[sorted_indices]`. -/
def outCharge (d : GainData K) : List K :=
  applyIdx (argsort (mergedIds d)) (mergedCharge d) 0

/-- Source line 183: `merged_charge_std[sorted_indices]`. -/
def outChargeStd (d : GainData K) : List K :=
  applyIdx (argsort (mergedIds d)) (mergedChargeStd d) 0

/-- First channel of the merged-and-sorted high gain,
`container_dict["high_gain"][:, 0]` (source line 187). -/
def hgCol0 (d : GainData K) (i : ℕ) : K :=
  ((outHighGain d).getD i []).getD 0 0

/-- The values returned by `pre_process_fits` (source lines 242-250), plus the
two entries of `dict_missing_pix` (source lines 231-234). -/
structure PreOut (K : Type) where
  n_pe : List K
  std_n_pe : List (NpVal K)
  mask : List Bool
  missingCount : ℕ
  hgZeroCount : ℤ
  high_gain : List (List K)
  low_gain : List (List K)
  charge : List K

/-- The `std_n_pe` column computed by `pre_process_fits` (source lines
194-201), evaluated on the merged-and-sorted arrays; note that the
`charge_std` argument of the per-pixel formula is the merged "charge_std"
column, which the source builds from the charge column. -/
def stdColumn (rsqrt : K → K) (d : GainData K) : List (NpVal K) :=
  (List.range (mergedIds d).length).map (fun i =>
    std_n_pe_of rsqrt ((outChargeStd d).getD i 0) ((outCharge d).getD i 0) (hgCol0 d i))

/-- The whole normalizer `pre_process_fits` (source lines 117-250), from the
merged arrays to the derived quantities, the validity mask
`mask = [a == 0 for a in std_n_pe]` (line 203) and the accounting tally
(`Missing pixels` and `high_gain = 0` entries of `dict_missing_pix`,
lines 231-234, the latter being `ma.count_masked(masked_hg) - len(missing)`
with `masked_hg` masked where `high_gain[:,0] <= 0`, lines 184-185). -/
def pre_process (rsqrt : K → K) (d : GainData K) : PreOut K :=
  { n_pe := (List.range (mergedIds d).length).map (fun i =>
      n_pe_of ((outCharge d).getD i 0) (hgCol0 d i))
    std_n_pe := stdColumn rsqrt d
    mask := (stdColumn rsqrt d).map NpVal.eqZero
    missingCount := (missingPixels d.pixels_id).length
    hgZeroCount :=
      (((List.range (mergedIds d).length).filter
          (fun i => decide (hgCol0 d i ≤ 0))).length : ℤ)
        - ((missingPixels d.pixels_id).length : ℤ)
    high_gain := outHighGain d
    low_gain := outLowGain d
    charge := outCharge d }

/-- `sigma_masked.count()`: the number of unmasked entries of a masked array. -/
def countUnmasked (mask : List Bool) : ℕ :=
  (mask.filter (fun b => !b)).length

/-- The `rejected_outliers` tally computed in the main script after the
no-variance fit, source lines 736-741:
`1855 - sigma_masked.count() - dict["Missing pixels"] - dict["high_gain = 0"]`,
where `sigma_masked` is the array returned by `pre_process_fits` (the
no-variance fitter only rebinds local names, it never reassigns the caller's
`sigma_masked`). -/
def rejected_outliers_main (out : PreOut K) : ℤ :=
  (totalPixels : ℤ) - (countUnmasked out.mask : ℤ)
    - (out.missingCount : ℤ) - out.hgZeroCount

/-- `Gaussian_model` (source lines 255-262): amplitude times an abstract
2D-Gaussian pdf evaluated at the camera pixel positions.  The ctapipe pdf is
an external collaborator, so it enters as an opaque parameter
`pdf cx cy sx sy i`. -/
def Gaussian_model (pdf : K → K → K → K → ℕ → K) (A x y sx sy : K) (i : ℕ) : K :=
  A * pdf x y sx sy i

/-- The no-variance least-squares objective `LSQ` (source lines 266-270):
`np.sum((n_pe - Gaussian_model([a0,a1,a2,a3,a4]))**2 / sigma_masked**2)` with
`a4 = a3`; the sum of a masked array ranges over unmasked entries only. -/
def LSQ (npix : ℕ) (npe sigma : ℕ → K) (mask : ℕ → Bool)
    (pdf : K → K → K → K → ℕ → K) (a0 a1 a2 a3 : K) : K :=
  ∑ i ∈ Finset.range npix, if mask i then 0 else
    (npe i - Gaussian_model pdf a0 a1 a2 a3 a3 i) ^ 2 / (sigma i) ^ 2

/-- The with-intrinsic-variance objective `LS_variance` (source lines 483-488):
`np.sum((n_pe - G)**2 / (sigma**2 + v_int) - np.log(sigma**2 / (sigma**2 + v_int)))`
with `a4 = a3`.  Note the MINUS sign in front of the log term. -/
def LS_variance (rlog : K → K) (npix : ℕ) (npe sigma : ℕ → K) (mask : ℕ → Bool)
    (pdf : K → K → K → K → ℕ → K) (a0 a1 a2 a3 v_int : K) : K :=
  ∑ i ∈ Finset.range npix, if mask i then 0 else
    ((npe i - Gaussian_model pdf a0 a1 a2 a3 a3 i) ^ 2 / ((sigma i) ^ 2 + v_int)
      - rlog ((sigma i) ^ 2 / ((sigma i) ^ 2 + v_int)))

/-- Modelled from the spec: the with-variance objective exactly as the spec
writes it, `Σ [ (n_pe - f)² / (sigma² + v) + ln(sigma² / (sigma² + v)) ]`,
i.e. with the log term ADDED.  Kept only to compare against the
source-derived `LS_variance`. -/
def LS_variance_specForm (rlog : K → K) (npix : ℕ) (npe sigma : ℕ → K)
    (mask : ℕ → Bool) (pdf : K → K → K → K → ℕ → K) (a0 a1 a2 a3 v_int : K) : K :=
  ∑ i ∈ Finset.range npix, if mask i then 0 else
    ((npe i - Gaussian_model pdf a0 a1 a2 a3 a3 i) ^ 2 / ((sigma i) ^ 2 + v_int)
      + rlog ((sigma i) ^ 2 / ((sigma i) ^ 2 + v_int)))

/-- `LSQ_wrap_var` (source lines 507-514), the function actually minimized in
`optimize_with_outlier_rejection_variance`: unpacks
`A, x, y, std_x, v_int = array_parameters`, sets `std_y = std_x`, and returns
the same expression as `LS_variance`. -/
def LSQ_wrap_var (rlog : K → K) (npix : ℕ) (npe sigma : ℕ → K) (mask : ℕ → Bool)
    (pdf : K → K → K → K → ℕ → K) (ps : K × K × K × K × K) : K :=
  match ps with
  | (A, x, y, std_x, v_int) =>
    ∑ i ∈ Finset.range npix, if mask i then 0 else
      ((npe i - Gaussian_model pdf A x y std_x std_x i) ^ 2 / ((sigma i) ^ 2 + v_int)
        - rlog ((sigma i) ^ 2 / ((sigma i) ^ 2 + v_int)))

/-- Number of unmasked entries among the first `npix` indices of a
function-style masked array. -/
def mCount (npix : ℕ) (mask : ℕ → Bool) : ℕ :=
  ((Finset.range npix).filter (fun i => mask i = false)).card

/-- `np.sum` of a masked array: masked entries contribute nothing. -/
def mSum (npix : ℕ) (data : ℕ → K) (mask : ℕ → Bool) : K :=
  ∑ i ∈ Finset.range npix, if mask i then 0 else data i

/-- `np.mean` of a masked array. -/
def mMean (npix : ℕ) (data : ℕ → K) (mask : ℕ → Bool) : K :=
  mSum npix data mask / (mCount npix mask : K)

/-- Squared `np.std` of a masked array (population variance, ddof = 0). -/
def mVar (npix : ℕ) (data : ℕ → K) (mask : ℕ → Bool) : K :=
  (∑ i ∈ Finset.range npix,
    if mask i then 0 else (data i - mMean npix data mask) ^ 2)
    / (mCount npix mask : K)

/-- The outlier test of `define_delete_out` (source lines 274-282 and
493-501, identical in both fitters): `np.abs(data - mean) > 3 * std` with
mean and std of the current (masked) data population.  `std` is the square
root of the population variance, so `rsqrt (mVar ...)` here. -/
def outlierAt (rsqrt : K → K) (npix : ℕ) (data : ℕ → K) (mask : ℕ → Bool)
    (i : ℕ) : Prop :=
  |data i - mMean npix data mask| > 3 * rsqrt (mVar npix data mask)

/-- The updated mask produced by `define_delete_out`:
`ma.masked_array(data, mask=outliers)` on an already-masked array combines
the old mask with the outlier flags by OR. -/
def ddoMask (rsqrt : K → K) (npix : ℕ) (data : ℕ → K) (mask : ℕ → Bool)
    (i : ℕ) : Prop :=
  mask i = true ∨ outlierAt rsqrt npix data mask i

/-- `relative_signal` of `compute_ff_coefs` (source lines 602-604):
`np.divide(masked_charges, masked_gains[:, 0], where=gains[:, 0] != 0)`.
With `where=` and no `out=`, positions where the guard is false hold
unspecified memory, modelled by the arbitrary function `junk`. -/
def relative_signal (charges gains0 junk : ℕ → K) (i : ℕ) : K :=
  if gains0 i ≠ 0 then charges i / gains0 i else junk i

/-- `eff = relative_signal / np.mean(relative_signal)` (source line 605);
the mean is the masked mean under the charge array's mask. -/
def ff_eff (npix : ℕ) (charges gains0 junk : ℕ → K) (mask : ℕ → Bool)
    (i : ℕ) : K :=
  relative_signal charges gains0 junk i
    / mMean npix (relative_signal charges gains0 junk) mask

/-- `std_FF` of `compute_ff_coefs_model` (source line 650):
`np.sqrt((data_std / model) ** 2 + (data * model_std / model ** 2) ** 2)`. -/
def std_FF (rsqrt : K → K) (data data_std model model_std : ℕ → K) (i : ℕ) : K :=
  rsqrt ((data_std i / model i) ^ 2 + (data i * model_std i / (model i) ^ 2) ^ 2)

/-- Membership of a value in a `np.histogram` bin `[lo, hi)`; numpy closes
the last bin on the right. -/
def inBin (lo hi : ℚ) (isLast : Bool) (t : ℚ) : Bool :=
  decide (lo ≤ t) && (if isLast then decide (t ≤ hi) else decide (t < hi))

/-- `np.histogram(theta, bins)[0]` for one bin: the number of θ values falling
in the bin (source line 414). -/
def histBinCount (theta : List ℚ) (lo hi : ℚ) (isLast : Bool) : ℕ :=
  (theta.filter (inBin lo hi isLast)).length

/-- The weights (model values or propagated errors) of the pixels whose θ
falls in the given bin. -/
def binMembers (theta ys : List ℚ) (lo hi : ℚ) (isLast : Bool) : List ℚ :=
  ((theta.zip ys).filter (fun p => inBin lo hi isLast p.1)).map Prod.snd

/-- `np.histogram(theta, bins, weights=ys)[0]` for one bin: the sum of the
weights of the θ values falling in the bin (source lines 412-413). -/
def histBinSum (theta ys : List ℚ) (lo hi : ℚ) (isLast : Bool) : ℚ :=
  (binMembers theta ys lo hi isLast).sum

/-- One bin of `np.where(count > 0, sum / count, np.nan)` (source lines
416-417); `none` models the NaN sentinel. -/
def rebinnedVal (theta ys : List ℚ) (lo hi : ℚ) (isLast : Bool) : Option ℚ :=
  if 0 < histBinCount theta lo hi isLast then
    some (histBinSum theta ys lo hi isLast / (histBinCount theta lo hi isLast : ℚ))
  else none

/-! ### Helper lemmas about argsort and the merged arrays -/

theorem argsort_perm (ids : List ℕ) : (argsort ids).Perm (List.range ids.length) :=
  List.mergeSort_perm _ _

theorem argsort_length (ids : List ℕ) : (argsort ids).length = ids.length := by
  rw [(argsort_perm ids).length_eq, List.length_range]

theorem mem_argsort {ids : List ℕ} {i : ℕ} : i ∈ argsort ids ↔ i < ids.length := by
  rw [(argsort_perm ids).mem_iff, List.mem_range]

theorem applyIdx_length {α : Type} (idx : List ℕ) (xs : List α) (dflt : α) :
    (applyIdx idx xs dflt).length = idx.length := by
  simp [applyIdx]

theorem applyIdx_getD {α : Type} (idx : List ℕ) (xs : List α) (dflt : α) {k : ℕ}
    (hk : k < idx.length) :
    (applyIdx idx xs dflt).getD k dflt = xs.getD (idx.getD k 0) dflt := by
  have h1 : k < (applyIdx idx xs dflt).length := by rw [applyIdx_length]; exact hk
  rw [List.getD_eq_getElem _ _ h1, List.getD_eq_getElem idx 0 hk]
  simp [applyIdx]

theorem map_getD_range {α : Type} (xs : List α) (dflt : α) :
    (List.range xs.length).map (fun i => xs.getD i dflt) = xs := by
  apply List.ext_getElem
  · simp
  · intro i h1 h2
    simp only [List.getElem_map, List.getElem_range]
    exact List.getD_eq_getElem xs dflt h2

theorem outIds_perm {K : Type} [LinearOrderedField K] (d : GainData K) :
    (outIds d).Perm (mergedIds d) := by
  have h := (argsort_perm (mergedIds d)).map (fun i => (mergedIds d).getD i 0)
  rw [map_getD_range (mergedIds d) 0] at h
  exact h

theorem outIds_sorted {K : Type} [LinearOrderedField K] (d : GainData K) :
    (outIds d).Sorted (· ≤ ·) := by
  have hs :
      ((List.range (mergedIds d).length).mergeSort
        (fun i j => decide ((mergedIds d).getD i 0 ≤ (mergedIds d).getD j 0))).Pairwise
        (fun i j => decide ((mergedIds d).getD i 0 ≤ (mergedIds d).getD j 0) = true) := by
    apply List.sorted_mergeSort
    · intro a b c hab hbc
      simp only [decide_eq_true_eq] at *
      omega
    · intro a b
      simp only [Bool.or_eq_true, decide_eq_true_eq]
      omega
  exact hs.map (fun i => (mergedIds d).getD i 0)
    (fun a b h => by simpa using h)

theorem mem_missingPixels {ids : List ℕ} {p : ℕ} :
    p ∈ missingPixels ids ↔ p < totalPixels ∧ p ∉ ids := by
  simp [missingPixels, List.mem_filter]

theorem missingPixels_nodup (ids : List ℕ) : (missingPixels ids).Nodup :=
  List.Nodup.filter _ (List.nodup_range _)

theorem mergedIds_nodup {K : Type} [LinearOrderedField K] (d : GainData K)
    (h1 : d.pixels_id.Nodup) : (mergedIds d).Nodup := by
  refine h1.append (missingPixels_nodup _) ?_
  intro a ha hb
  exact (mem_missingPixels.mp hb).2 ha

theorem mergedIds_perm {K : Type} [LinearOrderedField K] (d : GainData K)
    (h1 : d.pixels_id.Nodup) (h2 : ∀ p ∈ d.pixels_id, p < totalPixels) :
    (mergedIds d).Perm (List.range totalPixels) := by
  rw [List.perm_ext_iff_of_nodup (mergedIds_nodup d h1) (List.nodup_range _)]
  intro a
  simp only [mergedIds, List.mem_append, mem_missingPixels, List.mem_range]
  constructor
  · rintro (h | ⟨h, _⟩)
    · exact h2 a h
    · exact h
  · intro h
    by_cases hm : a ∈ d.pixels_id
    · exact Or.inl hm
    · exact Or.inr ⟨h, hm⟩

theorem mergedIds_length {K : Type} [LinearOrderedField K] (d : GainData K)
    (h1 : d.pixels_id.Nodup) (h2 : ∀ p ∈ d.pixels_id, p < totalPixels) :
    (mergedIds d).length = totalPixels := by
  rw [(mergedIds_perm d h1 h2).length_eq, List.length_range]

theorem outIds_eq_range {K : Type} [LinearOrderedField K] (d : GainData K)
    (h1 : d.pixels_id.Nodup) (h2 : ∀ p ∈ d.pixels_id, p < totalPixels) :
    outIds d = List.range totalPixels :=
  List.eq_of_perm_of_sorted ((outIds_perm d).trans (mergedIds_perm d h1 h2))
    (outIds_sorted d) (List.sorted_le_range _)

theorem argsort_getD_lt {K : Type} [LinearOrderedField K] (d : GainData K) {k : ℕ}
    (hk : k < (mergedIds d).length) :
    (argsort (mergedIds d)).getD k 0 < (mergedIds d).length := by
  apply mem_argsort.mp
  have hk2 : k < (argsort (mergedIds d)).length := by rw [argsort_length]; exact hk
  rw [List.getD_eq_getElem _ _ hk2]
  exact List.getElem_mem hk2

theorem argsort_value {K : Type} [LinearOrderedField K] (d : GainData K)
    (h1 : d.pixels_id.Nodup) (h2 : ∀ p ∈ d.pixels_id, p < totalPixels) {k : ℕ}
    (hk : k < totalPixels) :
    (mergedIds d).getD ((argsort (mergedIds d)).getD k 0) 0 = k := by
  have hlen := mergedIds_length d h1 h2
  have hk1 : k < (argsort (mergedIds d)).length := by
    rw [argsort_length, hlen]; exact hk
  rw [← applyIdx_getD (argsort (mergedIds d)) (mergedIds d) 0 hk1]
  change (outIds d).getD k 0 = k
  rw [outIds_eq_range d h1 h2,
    List.getD_eq_getElem _ _ (by simpa using hk), List.getElem_range]

theorem argsort_ge_of_not_mem {K : Type} [LinearOrderedField K] (d : GainData K)
    (h1 : d.pixels_id.Nodup) (h2 : ∀ p ∈ d.pixels_id, p < totalPixels) {k : ℕ}
    (hk : k < totalPixels) (hnot : k ∉ d.pixels_id) :
    d.pixels_id.length ≤ (argsort (mergedIds d)).getD k 0 := by
  by_contra hlt
  push_neg at hlt
  have hv := argsort_value d h1 h2 hk
  have happ := List.getD_append d.pixels_id (missingPixels d.pixels_id) 0
    ((argsort (mergedIds d)).getD k 0) hlt
  have hv2 : d.pixels_id.getD ((argsort (mergedIds d)).getD k 0) 0 = k := by
    rw [← happ]; exact hv
  have hmem : d.pixels_id.getD ((argsort (mergedIds d)).getD k 0) 0 ∈ d.pixels_id := by
    rw [List.getD_eq_getElem _ _ hlt]
    exact List.getElem_mem hlt
  rw [hv2] at hmem
  exact hnot hmem

theorem out_missing_entry {K : Type} [LinearOrderedField K] {α : Type}
    (d : GainData K) (h1 : d.pixels_id.Nodup)
    (h2 : ∀ p ∈ d.pixels_id, p < totalPixels)
    (front : List α) (pad dflt : α)
    (hfront : front.length = d.pixels_id.length)
    {k : ℕ} (hk : k < totalPixels) (hnot : k ∉ d.pixels_id) :
    (applyIdx (argsort (mergedIds d))
      (front ++ List.replicate (missingPixels d.pixels_id).length pad)
      dflt).getD k dflt = pad := by
  have hlen := mergedIds_length d h1 h2
  have hk1 : k < (argsort (mergedIds d)).length := by
    rw [argsort_length, hlen]; exact hk
  have hjlt : (argsort (mergedIds d)).getD k 0 < (mergedIds d).length :=
    argsort_getD_lt d (by rw [hlen]; exact hk)
  have hjge : d.pixels_id.length ≤ (argsort (mergedIds d)).getD k 0 :=
    argsort_ge_of_not_mem d h1 h2 hk hnot
  have hsplit : (mergedIds d).length
      = d.pixels_id.length + (missingPixels d.pixels_id).length := by
    simp [mergedIds]
  rw [applyIdx_getD _ _ _ hk1,
    List.getD_append_right _ _ _ _ (by omega)]
  have hsub : (argsort (mergedIds d)).getD k 0 - front.length
      < (missingPixels d.pixels_id).length := by omega
  rw [List.getD_eq_getElem _ _ (by simpa using hsub), List.getElem_replicate]

/-! ### Claim theorems -/

/-- Claim C5: for every sparse input whose pixel ids are distinct and drawn
from [0, 1855), the merged output has exactly 1855 records in every column,
the pixel ids are strictly increasing (hence no duplicates; they equal
`range 1855`), records for ids absent from the input are zero-valued with the
gain rows shaped like the input gain columns, and the rows synthesized by
`missing_entries` all match the corresponding input column shapes. -/
theorem claim_c5 {K : Type} [LinearOrderedField K] (d : GainData K)
    (h1 : d.pixels_id.Nodup) (h2 : ∀ p ∈ d.pixels_id, p < totalPixels)
    (hhg : d.high_gain.length = d.pixels_id.length)
    (hlg : d.low_gain.length = d.pixels_id.length)
    (hch : d.charge.length = d.pixels_id.length) :
    (outIds d).length = totalPixels ∧
    (outHighGain d).length = totalPixels ∧
    (outLowGain d).length = totalPixels ∧
    (outCharge d).length = totalPixels ∧
    (outChargeStd d).length = totalPixels ∧
    outIds d = List.range totalPixels ∧
    (outIds d).Sorted (· < ·) ∧
    (∀ k, k < totalPixels → k ∉ d.pixels_id →
      (outHighGain d).getD k [] = List.replicate (hgShape d) 0 ∧
      (outLowGain d).getD k [] = List.replicate (lgShape d) 0 ∧
      (outCharge d).getD k 0 = 0 ∧
      (outChargeStd d).getD k 0 = 0) ∧
    (∀ r ∈ missingHighGain d, r.length = hgShape d) ∧
    (∀ r ∈ missingLowGain d, r.length = lgShape d) ∧
    (∀ r ∈ missingChargeStd d, r.length = chargeStdShape d) := by
  have hlen := mergedIds_length d h1 h2
  have hidx : (argsort (mergedIds d)).length = totalPixels := by
    rw [argsort_length, hlen]
  refine ⟨?_, ?_, ?_, ?_, ?_, outIds_eq_range d h1 h2, ?_, ?_, ?_, ?_, ?_⟩
  · rw [show outIds d = applyIdx (argsort (mergedIds d)) (mergedIds d) 0 from rfl,
      applyIdx_length, hidx]
  · rw [show outHighGain d
        = applyIdx (argsort (mergedIds d)) (mergedHighGain d) [] from rfl,
      applyIdx_length, hidx]
  · rw [show outLowGain d
        = applyIdx (argsort (mergedIds d)) (mergedLowGain d) [] from rfl,
      applyIdx_length, hidx]
  · rw [show outCharge d
        = applyIdx (argsort (mergedIds d)) (mergedCharge d) 0 from rfl,
      applyIdx_length, hidx]
  · rw [show outChargeStd d
        = applyIdx (argsort (mergedIds d)) (mergedChargeStd d) 0 from rfl,
      applyIdx_length, hidx]
  · rw [outIds_eq_range d h1 h2]
    exact List.sorted_lt_range _
  · intro k hk hnot
    exact ⟨out_missing_entry d h1 h2 d.high_gain _ _ hhg hk hnot,
      out_missing_entry d h1 h2 d.low_gain _ _ hlg hk hnot,
      out_missing_entry d h1 h2 d.charge _ _ hch hk hnot,
      out_missing_entry d h1 h2 d.charge _ _ hch hk hnot⟩
  · intro r hr
    rw [List.eq_of_mem_replicate hr, List.length_replicate]
  · intro r hr
    rw [List.eq_of_mem_replicate hr, List.length_replicate]
  · intro r hr
    rw [List.eq_of_mem_replicate hr, List.length_replicate]

/-- Witness for claim C5 at a concrete two-pixel input over `ℚ`. -/
theorem claim_c5_witness :
    ([3, 0] : List ℕ).Nodup ∧ (∀ p ∈ ([3, 0] : List ℕ), p < totalPixels) ∧
    outIds (GainData.mk (K := ℚ) [3, 0] [[5, 6], [7, 8]] [[1], [2]] [10, 20]
        [[9], [11]])
      = List.range totalPixels ∧
    (outCharge (GainData.mk (K := ℚ) [3, 0] [[5, 6], [7, 8]] [[1], [2]] [10, 20]
        [[9], [11]])).getD 1 0 = 0 := by
  have h1 : ([3, 0] : List ℕ).Nodup := by decide
  have h2 : ∀ p ∈ ([3, 0] : List ℕ), p < totalPixels := by decide
  have h := claim_c5 (GainData.mk (K := ℚ) [3, 0] [[5, 6], [7, 8]] [[1], [2]]
    [10, 20] [[9], [11]]) h1 h2 rfl rfl rfl
  exact ⟨h1, h2, h.2.2.2.2.2.1,
    (h.2.2.2.2.2.2.2.1 1 (by decide) (by decide)).2.2.1⟩

/-- Claim C2 (the code contradicts it): the normalizer never reads the input
`charge_std` column — replacing it changes nothing in the output of
`pre_process_fits` — and for a present pixel with positive gain and nonzero
charge the merged pipeline computes `std_n_pe = sqrt(charge * n_pe / charge)
= sqrt(n_pe)`, because the merged "charge_std" column is built from the
charge column (source lines 173-175). -/
theorem claim_c2 {K : Type} [LinearOrderedField K] (rsqrt : K → K)
    (d : GainData K) (cs : List (List K)) (hg charge : K)
    (hpos : 0 < hg) (hch : charge ≠ 0) (hnn : 0 ≤ charge) :
    pre_process rsqrt { d with charge_std := cs } = pre_process rsqrt d ∧
    std_n_pe_of rsqrt charge charge hg = NpVal.num (rsqrt (n_pe_of charge hg)) := by
  constructor
  · rfl
  · have hne : hg ≠ 0 := ne_of_gt hpos
    have hdiv : charge * (charge / hg) / charge = charge / hg := by
      field_simp
      ring
    have hnonneg : ¬ charge / hg < 0 :=
      not_lt.mpr (div_nonneg hnn (le_of_lt hpos))
    simp only [std_n_pe_of, n_pe_of, if_pos hpos, if_pos hne, npDiv,
      if_neg hch, hdiv, npSqrt, if_neg hnonneg]

/-- Witness for claim C2 at a concrete input over `ℚ`. -/
theorem claim_c2_witness :
    (0 : ℚ) < 2 ∧ (4 : ℚ) ≠ 0 ∧ (0 : ℚ) ≤ 4 ∧
    pre_process (fun x => x)
        { (GainData.mk (K := ℚ) [0] [[2]] [[1]] [4] [[9]]) with charge_std := [[7]] }
      = pre_process (fun x => x) (GainData.mk (K := ℚ) [0] [[2]] [[1]] [4] [[9]]) ∧
    std_n_pe_of (fun x => x) (4 : ℚ) 4 2 = NpVal.num (n_pe_of (4 : ℚ) 2) := by
  have h := claim_c2 (fun x => (x : ℚ))
    (GainData.mk (K := ℚ) [0] [[2]] [[1]] [4] [[9]]) [[7]] 2 4
    (by norm_num) (by norm_num) (by norm_num)
  exact ⟨by norm_num, by norm_num, by norm_num, h.1, h.2⟩

/-- Claim C3 counterexample: at a pixel with `high_gain = -1` and
`charge = 0` (so also merged charge_std = 0) the guarded division is still
executed — the guard is `high_gain != 0`, not `high_gain > 0` — and computes
0/0 = nan, so `std_n_pe` is nan rather than 0 and the pixel is NOT masked by
`std_n_pe == 0`. -/
theorem claim_c3_counterexample :
    std_n_pe_of (K := ℝ) Real.sqrt 0 0 (-1) = NpVal.nan ∧
    NpVal.eqZero (std_n_pe_of (K := ℝ) Real.sqrt 0 0 (-1)) = false := by
  have hne : (-1 : ℝ) ≠ 0 := by norm_num
  have h : std_n_pe_of (K := ℝ) Real.sqrt 0 0 (-1) = NpVal.nan := by
    simp [std_n_pe_of, npDiv, npSqrt, n_pe_of, if_pos hne]
  exact ⟨h, by rw [h]; rfl⟩

/-- Claim C3 as amended: for `high_gain ≤ 0` the photoelectron estimate is
exactly 0 (its division is guarded by `high_gain > 0`); and whenever
additionally `high_gain = 0` or `charge ≠ 0`, `std_n_pe` is exactly 0 and the
pixel is masked invalid.  In the remaining case (`high_gain < 0` and
`charge = 0`) the second division computes 0/0 = nan, see the counterexample. -/
theorem claim_c3_amended {K : Type} [LinearOrderedField K] (rsqrt : K → K)
    (h0 : rsqrt 0 = 0) (charge_std charge hg : K) (hle : hg ≤ 0) :
    n_pe_of charge hg = 0 ∧
    (hg = 0 ∨ charge ≠ 0 →
      std_n_pe_of rsqrt charge_std charge hg = NpVal.num 0 ∧
      NpVal.eqZero (std_n_pe_of rsqrt charge_std charge hg) = true) := by
  have hnp : n_pe_of charge hg = 0 := if_neg (not_lt.mpr hle)
  refine ⟨hnp, fun hcase => ?_⟩
  have hstd : std_n_pe_of rsqrt charge_std charge hg = NpVal.num 0 := by
    by_cases hz : hg = 0
    · simp [std_n_pe_of, hz, npSqrt, h0]
    · rcases hcase with hcase | hcase
      · exact absurd hcase hz
      · simp [std_n_pe_of, if_pos hz, hnp, npDiv, if_neg hcase, npSqrt, h0]
  refine ⟨hstd, ?_⟩
  rw [hstd]
  simp [NpVal.eqZero]

/-- Witness for the amended claim C3 over `ℚ`. -/
theorem claim_c3_amended_witness :
    ((fun x => (x : ℚ)) 0 = 0) ∧ ((-2 : ℚ) ≤ 0) ∧
    n_pe_of (5 : ℚ) (-2) = 0 ∧
    std_n_pe_of (fun x => x) (1 : ℚ) 5 (-2) = NpVal.num 0 ∧
    NpVal.eqZero (std_n_pe_of (fun x => (x : ℚ)) 1 5 (-2)) = true := by
  have h := claim_c3_amended (fun x => (x : ℚ)) rfl 1 5 (-2) (by norm_num)
  have h2 := h.2 (Or.inr (by norm_num))
  exact ⟨rfl, by norm_num, h.1, h2.1, h2.2⟩

theorem filter_length_split (mask : List Bool) :
    (mask.filter (fun b => !b)).length + (mask.filter (fun b => b)).length
      = mask.length := by
  induction mask with
  | nil => rfl
  | cons b t ih =>
    cases b <;> simp only [List.filter_cons] <;> simp <;> omega

theorem map_filter_length {α : Type} (f : α → Bool) (l : List α) :
    ((l.map f).filter (fun b => b)).length = (l.filter f).length := by
  induction l with
  | nil => rfl
  | cons a t ih =>
    cases hfa : f a <;> simp [List.filter_cons, hfa, ih]

/-- Claim C10: the `rejected_outliers` tally of the main script (computed
after the no-variance fit from the untouched `sigma_masked` returned by
`pre_process_fits` — the fitter only rebinds local names) equals the number
of pixels with `std_n_pe == 0` minus the missing-pixel count minus the
high-gain-zero count, independently of which pixels the 3-sigma pass masked. -/
theorem claim_c10 {K : Type} [LinearOrderedField K] (rsqrt : K → K)
    (d : GainData K) (h1 : d.pixels_id.Nodup)
    (h2 : ∀ p ∈ d.pixels_id, p < totalPixels) :
    rejected_outliers_main (pre_process rsqrt d)
      = (((pre_process rsqrt d).std_n_pe.filter
            (fun v => NpVal.eqZero v)).length : ℤ)
        - ((pre_process rsqrt d).missingCount : ℤ)
        - (pre_process rsqrt d).hgZeroCount := by
  have hlen := mergedIds_length d h1 h2
  have hstdlen : (stdColumn rsqrt d).length = totalPixels := by
    rw [stdColumn, List.length_map, List.length_range, hlen]
  have hsplit := filter_length_split ((stdColumn rsqrt d).map NpVal.eqZero)
  have hmap := map_filter_length (NpVal.eqZero (K := K)) (stdColumn rsqrt d)
  have hmlen : ((stdColumn rsqrt d).map NpVal.eqZero).length
      = (stdColumn rsqrt d).length := List.length_map _ _
  have heta : (List.filter (fun v => NpVal.eqZero v) (stdColumn rsqrt d)).length
      = (List.filter NpVal.eqZero (stdColumn rsqrt d)).length := rfl
  simp only [rejected_outliers_main, pre_process, countUnmasked]
  omega

/-- Witness for claim C10 at a concrete one-pixel input over `ℚ`. -/
theorem claim_c10_witness :
    ([7] : List ℕ).Nodup ∧ (∀ p ∈ ([7] : List ℕ), p < totalPixels) ∧
    rejected_outliers_main
        (pre_process (fun x => x) (GainData.mk (K := ℚ) [7] [[3]] [[1]] [6] [[2]]))
      = (((pre_process (fun x => (x : ℚ)) (GainData.mk [7] [[3]] [[1]] [6]
            [[2]])).std_n_pe.filter (fun v => NpVal.eqZero v)).length : ℤ)
        - ((pre_process (fun x => (x : ℚ)) (GainData.mk [7] [[3]] [[1]] [6]
            [[2]])).missingCount : ℤ)
        - (pre_process (fun x => (x : ℚ)) (GainData.mk [7] [[3]] [[1]] [6]
            [[2]])).hgZeroCount := by
  exact ⟨by decide, by decide,
    claim_c10 (fun x => (x : ℚ)) (GainData.mk [7] [[3]] [[1]] [6] [[2]])
      (by decide) (by decide)⟩

/-- Claim C1 counterexample: on a one-pixel configuration with residual 1,
sigma 1 and v = 1, the objective implemented by `LS_variance` (log term
subtracted, source line 487) differs from the formula written in the spec
(log term added). -/
theorem claim_c1_counterexample :
    LS_variance (K := ℝ) Real.log 1 (fun _ => 1) (fun _ => 1) (fun _ => false)
        (fun _ _ _ _ _ => 0) 0 0 0 1 1
      ≠ LS_variance_specForm (K := ℝ) Real.log 1 (fun _ => 1) (fun _ => 1)
        (fun _ => false) (fun _ _ _ _ _ => 0) 0 0 0 1 1 := by
  simp only [LS_variance, LS_variance_specForm, Gaussian_model,
    Finset.sum_range_one, Bool.false_eq_true, if_false]
  intro h
  have hlog : Real.log (1 ^ 2 / (1 ^ 2 + 1)) = 0 := by linarith
  rw [show ((1 : ℝ) ^ 2 / (1 ^ 2 + 1)) = 1 / 2 by norm_num,
    Real.log_eq_zero] at hlog
  norm_num at hlog

/-- Claim C1 as amended: the with-intrinsic-variance objective is
`Σ [ (n_pe - f)² / (sigma² + v) - ln(sigma² / (sigma² + v)) ]`, i.e. the log
normalization term enters with a MINUS sign, equivalently ADDED as
`ln((sigma² + v) / sigma²) ≥ 0`, which is the form that penalizes `v`
growing; this objective is implemented both by `LS_variance` and by the
`LSQ_wrap_var` function minimized in
`optimize_with_outlier_rejection_variance`. -/
theorem claim_c1_amended (n : ℕ) (f g : ℕ → ℝ) (m : ℕ → Bool)
    (p : ℝ → ℝ → ℝ → ℝ → ℕ → ℝ) (a0 a1 a2 a3 v : ℝ)
    (h : ∀ i < n, m i = false → g i ≠ 0 ∧ (g i) ^ 2 + v ≠ 0) :
    LSQ_wrap_var Real.log n f g m p (a0, a1, a2, a3, v)
      = LS_variance Real.log n f g m p a0 a1 a2 a3 v ∧
    LS_variance Real.log n f g m p a0 a1 a2 a3 v
      = ∑ i ∈ Finset.range n, (if m i then 0 else
          ((f i - Gaussian_model p a0 a1 a2 a3 a3 i) ^ 2 / ((g i) ^ 2 + v)
            + Real.log (((g i) ^ 2 + v) / (g i) ^ 2))) := by
  constructor
  · rfl
  · unfold LS_variance
    apply Finset.sum_congr rfl
    intro i hi
    cases hm : m i
    · obtain ⟨hg0, hgv⟩ := h i (Finset.mem_range.mp hi) hm
      have h2 : (g i) ^ 2 ≠ 0 := pow_ne_zero 2 hg0
      simp only [Bool.false_eq_true, if_false]
      rw [Real.log_div h2 hgv, Real.log_div hgv h2]
      ring
    · simp

/-- Witness for the amended claim C1 on a one-pixel configuration. -/
theorem claim_c1_amended_witness :
    (∀ i < 1, (fun _ => false) i = false →
      ((fun _ => (1 : ℝ)) i) ≠ 0 ∧ ((fun _ => (1 : ℝ)) i) ^ 2 + 1 ≠ 0) ∧
    LSQ_wrap_var Real.log 1 (fun _ => 0) (fun _ => 1) (fun _ => false)
        (fun _ _ _ _ _ => 0) (1, 0, 0, 1, 1)
      = LS_variance Real.log 1 (fun _ => 0) (fun _ => 1) (fun _ => false)
        (fun _ _ _ _ _ => 0) 1 0 0 1 1 := by
  refine ⟨fun i _ _ => ⟨one_ne_zero, by norm_num⟩, ?_⟩
  exact (claim_c1_amended 1 (fun _ => 0) (fun _ => 1) (fun _ => false)
    (fun _ _ _ _ _ => 0) 1 0 0 1 1
    (fun i _ _ => ⟨one_ne_zero, by norm_num⟩)).1

/-- Claim C4: with the intrinsic variance set to 0 the with-variance
objective reduces exactly to the no-variance objective, the log term
becoming `ln(sigma²/sigma²) = ln 1 = 0`, for every parameter vector and
every configuration whose non-masked sigmas are nonzero. -/
theorem claim_c4 (n : ℕ) (f g : ℕ → ℝ) (m : ℕ → Bool)
    (p : ℝ → ℝ → ℝ → ℝ → ℕ → ℝ) (a0 a1 a2 a3 : ℝ)
    (h : ∀ i < n, m i = false → g i ≠ 0) :
    LS_variance Real.log n f g m p a0 a1 a2 a3 0
      = LSQ n f g m p a0 a1 a2 a3 := by
  unfold LS_variance LSQ
  apply Finset.sum_congr rfl
  intro i hi
  cases hm : m i
  · have hg0 := h i (Finset.mem_range.mp hi) hm
    have h2 : (g i) ^ 2 ≠ 0 := pow_ne_zero 2 hg0
    simp only [Bool.false_eq_true, if_false, add_zero, div_self h2,
      Real.log_one, sub_zero]
  · simp

/-- Witness for claim C4 on a one-pixel configuration. -/
theorem claim_c4_witness :
    (∀ i < 1, (fun _ => false) i = false → ((fun _ => (1 : ℝ)) i) ≠ 0) ∧
    LS_variance Real.log 1 (fun _ => 2) (fun _ => 1) (fun _ => false)
        (fun _ _ _ _ _ => 0) 3 0 0 1 0
      = LSQ 1 (fun _ => 2) (fun _ => 1) (fun _ => false)
        (fun _ _ _ _ _ => 0) 3 0 0 1 := by
  refine ⟨fun i _ _ => one_ne_zero, ?_⟩
  exact claim_c4 1 (fun _ => 2) (fun _ => 1) (fun _ => false)
    (fun _ _ _ _ _ => 0) 3 0 0 1 (fun i _ _ => one_ne_zero)

/-- Claim C6: the 3-sigma outlier test of `define_delete_out` is strict and
symmetric: an unmasked value whose absolute deviation from the population
mean equals exactly `3 * std` is not marked, and any value whose absolute
deviation strictly exceeds `3 * std` is marked. -/
theorem claim_c6 (n : ℕ) (f : ℕ → ℝ) (m : ℕ → Bool) (i : ℕ)
    (hm : m i = false) :
    (|f i - mMean n f m| = 3 * Real.sqrt (mVar n f m) →
      ¬ ddoMask Real.sqrt n f m i) ∧
    (|f i - mMean n f m| > 3 * Real.sqrt (mVar n f m) →
      ddoMask Real.sqrt n f m i) := by
  constructor
  · intro heq hdd
    rcases hdd with hmm | hout
    · rw [hm] at hmm
      exact Bool.false_ne_true hmm
    · have hout2 : |f i - mMean n f m| > 3 * Real.sqrt (mVar n f m) := hout
      rw [heq] at hout2
      exact lt_irrefl _ hout2
  · intro hgt
    exact Or.inr hgt

/-- Witness for claim C6: with ten values `[10, 0, ..., 0]` the value 10 sits
exactly at `mean + 3·std` (mean 1, std 3) and is not marked; with eleven
values `[11, 0, ..., 0]` the value 11 deviates by 10 > 3·√10 and is marked. -/
theorem claim_c6_witness :
    ((fun (_ : ℕ) => false) 0 = false) ∧
    ¬ ddoMask Real.sqrt 10 (fun i => if i = 0 then (10 : ℝ) else 0)
        (fun _ => false) 0 ∧
    ddoMask Real.sqrt 11 (fun i => if i = 0 then (11 : ℝ) else 0)
        (fun _ => false) 0 := by
  refine ⟨rfl, ?_, ?_⟩
  · have hcnt : mCount 10 (fun _ => false) = 10 := by decide
    have hsum : mSum 10 (fun i => if i = 0 then (10 : ℝ) else 0)
        (fun _ => false) = 10 := by
      norm_num [mSum, Finset.sum_range_succ]
    have hmean : mMean 10 (fun i => if i = 0 then (10 : ℝ) else 0)
        (fun _ => false) = 1 := by
      rw [mMean, hsum, hcnt]
      norm_num
    have hvar : mVar 10 (fun i => if i = 0 then (10 : ℝ) else 0)
        (fun _ => false) = 9 := by
      rw [mVar, hcnt]
      norm_num [hmean, Finset.sum_range_succ]
    have hsqrt : Real.sqrt 9 = 3 := by
      rw [show (9 : ℝ) = 3 ^ 2 by norm_num,
        Real.sqrt_sq (by norm_num : (0 : ℝ) ≤ 3)]
    refine (claim_c6 10 (fun i => if i = 0 then (10 : ℝ) else 0)
      (fun _ => false) 0 rfl).1 ?_
    rw [hmean, hvar, hsqrt]
    norm_num
  · have hcnt : mCount 11 (fun _ => false) = 11 := by decide
    have hsum : mSum 11 (fun i => if i = 0 then (11 : ℝ) else 0)
        (fun _ => false) = 11 := by
      norm_num [mSum, Finset.sum_range_succ]
    have hmean : mMean 11 (fun i => if i = 0 then (11 : ℝ) else 0)
        (fun _ => false) = 1 := by
      rw [mMean, hsum, hcnt]
      norm_num
    have hvar : mVar 11 (fun i => if i = 0 then (11 : ℝ) else 0)
        (fun _ => false) = 10 := by
      rw [mVar, hcnt]
      norm_num [hmean, Finset.sum_range_succ]
    refine (claim_c6 11 (fun i => if i = 0 then (11 : ℝ) else 0)
      (fun _ => false) 0 rfl).2 ?_
    rw [hmean, hvar]
    have hs : Real.sqrt 10 < 10 / 3 :=
      (Real.sqrt_lt' (by norm_num)).mpr (by norm_num)
    norm_num
    linarith

/-- Claim C7: the raw-ratio flat-field coefficients are normalized by their
own mean, so for every non-degenerate input (nonzero unmasked gains, nonzero
mean relative signal, at least one unmasked pixel) the masked mean of `eff`
is exactly 1. -/
theorem claim_c7 {K : Type} [LinearOrderedField K] (n : ℕ)
    (charges gains0 junk : ℕ → K) (m : ℕ → Bool)
    (_hfin : ∀ i < n, m i = false → gains0 i ≠ 0)
    (hcnt : mCount n m ≠ 0)
    (hmean : mMean n (relative_signal charges gains0 junk) m ≠ 0) :
    mMean n (ff_eff n charges gains0 junk m) m = 1 := by
  have hc : ((mCount n m : K)) ≠ 0 := Nat.cast_ne_zero.mpr hcnt
  have hsum : mSum n (ff_eff n charges gains0 junk m) m
      = mSum n (relative_signal charges gains0 junk) m
        / mMean n (relative_signal charges gains0 junk) m := by
    unfold mSum ff_eff
    rw [Finset.sum_div]
    apply Finset.sum_congr rfl
    intro i _
    cases hm : m i
    · simp
    · simp
  have hS : mSum n (relative_signal charges gains0 junk) m
      = mMean n (relative_signal charges gains0 junk) m * (mCount n m : K) := by
    rw [mMean]
    field_simp
  rw [mMean, hsum, hS]
  field_simp

/-- Witness for claim C7 over `ℚ` with two unmasked pixels. -/
theorem claim_c7_witness :
    mCount 2 (fun _ => false) ≠ 0 ∧
    mMean 2 (relative_signal (fun i => if i = 0 then (2 : ℚ) else 4)
        (fun _ => 1) (fun _ => 0)) (fun _ => false) ≠ 0 ∧
    mMean 2 (ff_eff 2 (fun i => if i = 0 then (2 : ℚ) else 4) (fun _ => 1)
        (fun _ => 0) (fun _ => false)) (fun _ => false) = 1 := by
  have hcnt : mCount 2 (fun (_ : ℕ) => false) ≠ 0 := by decide
  have hc2 : mCount 2 (fun (_ : ℕ) => false) = 2 := by decide
  have hmean : mMean 2 (relative_signal (fun i => if i = 0 then (2 : ℚ) else 4)
      (fun _ => 1) (fun _ => 0)) (fun _ => false) ≠ 0 := by
    norm_num [mMean, hc2, mSum, relative_signal, Finset.sum_range_succ]
  exact ⟨hcnt, hmean,
    claim_c7 2 (fun i => if i = 0 then (2 : ℚ) else 4) (fun _ => 1)
      (fun _ => 0) (fun _ => false) (fun i _ _ => by norm_num) hcnt hmean⟩

/-- Claim C8: the model-based flat-field uncertainty is, per pixel,
`sqrt((data_std/model)² + (data*model_std/model²)²)`, and at
model = 1, data = 1, data_std = 0.1, model_std = 0.05 it equals
`sqrt(0.1² + 0.05²) ≈ 0.1118` (within 10⁻⁴). -/
theorem claim_c8 :
    (∀ (data dstd mdl mstd : ℕ → ℝ) (i : ℕ),
      std_FF Real.sqrt data dstd mdl mstd i
        = Real.sqrt ((dstd i / mdl i) ^ 2 + (data i * mstd i / (mdl i) ^ 2) ^ 2)) ∧
    std_FF Real.sqrt (fun _ => 1) (fun _ => 0.1) (fun _ => 1) (fun _ => 0.05) 0
      = Real.sqrt (0.1 ^ 2 + 0.05 ^ 2) ∧
    |std_FF Real.sqrt (fun _ => 1) (fun _ => 0.1) (fun _ => 1) (fun _ => 0.05) 0
      - 0.1118| < 0.0001 := by
  have heq : std_FF Real.sqrt (fun _ => 1) (fun _ => 0.1) (fun _ => 1)
      (fun _ => 0.05) 0 = Real.sqrt (0.1 ^ 2 + 0.05 ^ 2) := by
    unfold std_FF
    norm_num
  refine ⟨fun data dstd mdl mstd i => rfl, heq, ?_⟩
  rw [heq, show (0.1 : ℝ) ^ 2 + 0.05 ^ 2 = 0.0125 by norm_num]
  have h1 : Real.sqrt 0.0125 < 0.1119 :=
    (Real.sqrt_lt' (by norm_num)).mpr (by norm_num)
  have h2 : (0.1117 : ℝ) < Real.sqrt 0.0125 :=
    (Real.lt_sqrt (by norm_num)).mpr (by norm_num)
  rw [abs_lt]
  constructor <;> linarith

theorem zip_filter_length {α β : Type} (p : α → Bool) (l1 : List α) :
    ∀ (l2 : List β), l2.length = l1.length →
      ((l1.zip l2).filter (fun q => p q.1)).length = (l1.filter p).length := by
  induction l1 with
  | nil =>
    intro l2 _
    simp
  | cons a t ih =>
    intro l2 h
    cases l2 with
    | nil => simp at h
    | cons b t2 =>
      simp only [List.zip_cons_cons, List.filter_cons]
      cases hpa : p a <;>
        simp [hpa, ih t2 (by simpa using h)]

/-- Claim C9: in the rebinning step, a bin with zero members yields the NaN
sentinel (not zero) in both the rebinned model value and the rebinned
uncertainty, while a bin with members yields the arithmetic mean of its
members in both. -/
theorem claim_c9 (theta ys es : List ℚ) (lo hi : ℚ) (isLast : Bool)
    (hys : ys.length = theta.length) (hes : es.length = theta.length) :
    (histBinCount theta lo hi isLast = 0 →
      rebinnedVal theta ys lo hi isLast = none ∧
      rebinnedVal theta es lo hi isLast = none ∧
      rebinnedVal theta ys lo hi isLast ≠ some 0 ∧
      rebinnedVal theta es lo hi isLast ≠ some 0) ∧
    (0 < histBinCount theta lo hi isLast →
      rebinnedVal theta ys lo hi isLast
        = some ((binMembers theta ys lo hi isLast).sum
            / ((binMembers theta ys lo hi isLast).length : ℚ)) ∧
      rebinnedVal theta es lo hi isLast
        = some ((binMembers theta es lo hi isLast).sum
            / ((binMembers theta es lo hi isLast).length : ℚ))) := by
  have hby : (binMembers theta ys lo hi isLast).length
      = histBinCount theta lo hi isLast := by
    unfold binMembers histBinCount
    rw [List.length_map]
    exact zip_filter_length _ theta ys hys
  have hbe : (binMembers theta es lo hi isLast).length
      = histBinCount theta lo hi isLast := by
    unfold binMembers histBinCount
    rw [List.length_map]
    exact zip_filter_length _ theta es hes
  constructor
  · intro h0
    have hy0 : rebinnedVal theta ys lo hi isLast = none := by
      unfold rebinnedVal
      rw [if_neg (by omega)]
    have he0 : rebinnedVal theta es lo hi isLast = none := by
      unfold rebinnedVal
      rw [if_neg (by omega)]
    exact ⟨hy0, he0, by rw [hy0]; exact Option.noConfusion,
      by rw [he0]; exact Option.noConfusion⟩
  · intro hpos
    unfold rebinnedVal histBinSum
    rw [if_pos hpos, if_pos hpos, hby, hbe]
    exact ⟨rfl, rfl⟩

/-- Witness for claim C9: with θ values [1/2, 3/2], the bin [5, 6) is empty
and reports NaN, and the bin [0, 1) contains one member and reports its
mean. -/
theorem claim_c9_witness :
    ([10, 20] : List ℚ).length = ([1/2, 3/2] : List ℚ).length ∧
    histBinCount [1/2, 3/2] 5 6 false = 0 ∧
    rebinnedVal [1/2, 3/2] [10, 20] 5 6 false = none ∧
    0 < histBinCount [1/2, 3/2] 0 1 false ∧
    rebinnedVal [1/2, 3/2] [10, 20] 0 1 false
      = some ((binMembers [1/2, 3/2] [10, 20] 0 1 false).sum
          / ((binMembers [1/2, 3/2] [10, 20] 0 1 false).length : ℚ)) := by
  have h0 : histBinCount [1/2, 3/2] (5 : ℚ) 6 false = 0 := by
    norm_num [histBinCount, inBin, List.filter]
  have h1 : 0 < histBinCount [1/2, 3/2] (0 : ℚ) 1 false := by
    norm_num [histBinCount, inBin, List.filter]
  exact ⟨rfl, h0,
    ((claim_c9 [1/2, 3/2] [10, 20] [1, 2] 5 6 false rfl rfl).1 h0).1, h1,
    ((claim_c9 [1/2, 3/2] [10, 20] [1, 2] 0 1 false rfl rfl).2 h1).1⟩

end PhotoStat
